import Mathlib

/-!
Verification development for the terminal-manager core: a shallow embedding
of the session supervisor, persistence store, peer discovery, metadata
extractor, peer-server port probing and tunnel-id helpers, with theorems
settling the specification claims against the embedded code.

Strings from the source are modelled as `List Char`; JS `Map` objects are
modelled as association lists with insertion-order-preserving `set`.
-/

namespace TerminalManager

/-! ## Shared string machinery (JS semantics) -/

/-- JS `String.prototype.trim` / `\s` whitespace class, by code point. -/
def isJsSpace (c : Char) : Bool :=
  let n := c.toNat
  n = 0x09 || n = 0x0a || n = 0x0b || n = 0x0c || n = 0x0d || n = 0x20 ||
  n = 0xa0 || n = 0x1680 || (0x2000 <= n && n <= 0x200a) ||
  n = 0x2028 || n = 0x2029 || n = 0x202f || n = 0x205f || n = 0x3000 ||
  n = 0xfeff

/-- JS `trim()`: strip leading and trailing whitespace. -/
def jsTrim (l : List Char) : List Char :=
  ((l.dropWhile isJsSpace).reverse.dropWhile isJsSpace).reverse

/-- JS `String.prototype.length`: UTF-16 code units (astral chars count 2). -/
def jsLength (l : List Char) : Nat :=
  (l.map (fun c => if c.toNat ≥ 0x10000 then 2 else 1)).sum

/-- Substring test, as JS `String.prototype.includes`. -/
def isSubstr (pat : List Char) : List Char → Bool
  | [] => pat.isPrefixOf []
  | c :: t => pat.isPrefixOf (c :: t) || isSubstr pat t

/-! ## Tunnel session ids (protocol helpers)

Embeds `makeTunnelSessionId` / `isTunnelSessionId` / `parseTunnelSessionId`.
-/

def tunnelPrefix : List Char := "tunnel:".data

def makeTunnelSessionId (instanceId remoteSessionId : List Char) : List Char :=
  tunnelPrefix ++ instanceId ++ ':' :: remoteSessionId

def isTunnelSessionId (id : List Char) : Bool :=
  tunnelPrefix.isPrefixOf id

/-- `parseTunnelSessionId`: strip the prefix, split at the first `':'`. -/
def parseTunnelSessionId (id : List Char) :
    Option (List Char × List Char) :=
  if isTunnelSessionId id then
    let rest := id.drop tunnelPrefix.length
    match rest.dropWhile (· ≠ ':') with
    | [] => none
    | _ :: tl => some (rest.takeWhile (· ≠ ':'), tl)
  else none

/-! ## Auto-discovery watcher (dedup rule) -/

structure WatcherState where
  knownIds : List (List Char)
  knownWorkingDirs : List (List Char)
  deriving Repr, DecidableEq

/-- `SessionWatcher.shouldEmit`: emit iff the session id is unseen and the
working directory is not yet claimed; both are marked as known. -/
def shouldEmit (st : WatcherState) (sessionId workingDir : List Char) :
    Bool × WatcherState :=
  if sessionId ∈ st.knownIds then (false, st)
  else
    let st1 : WatcherState := { st with knownIds := sessionId :: st.knownIds }
    if workingDir ∈ st1.knownWorkingDirs then (false, st1)
    else (true, { st1 with knownWorkingDirs := workingDir :: st1.knownWorkingDirs })

/-! ## Session supervisor: `restart` -/

inductive SessionType | claude | copilot
  deriving Repr, DecidableEq

inductive SessionStatus | active | idle | closed
  deriving Repr, DecidableEq

structure Session where
  id : List Char
  name : List Char
  type : SessionType
  status : SessionStatus
  workingDir : List Char
  deriving Repr, DecidableEq

/-- Arguments `SessionManager.restart` passes to the fresh `PtySession`. -/
structure PtySpec where
  type : SessionType
  workingDir : List Char
  resume : Bool
  deriving Repr, DecidableEq

structure ManagedSession where
  session : Session
  ptyIsRunning : Bool
  deriving Repr, DecidableEq

/-- Association-list lookup, as `Map.get`. -/
def alGet {κ α : Type} [DecidableEq κ] (l : List (κ × α)) (k : κ) : Option α :=
  match l.find? (fun p => p.1 = k) with
  | some p => some p.2
  | none => none

/-- Association-list update in place (JS `Map.set` keeps the original slot
of an existing key and appends a new key at the end). -/
def alSet {κ α : Type} [DecidableEq κ] (l : List (κ × α)) (k : κ) (v : α) :
    List (κ × α) :=
  match l with
  | [] => [(k, v)]
  | p :: t => if p.1 = k then (k, v) :: t else p :: alSet t k v

structure ManagerState where
  sessions : List (List Char × ManagedSession)
  deriving Repr, DecidableEq

/-- `SessionManager.restart`: not-found ids yield `none` and no spawn;
otherwise respawn a PTY with `resume := true` on the recorded working
directory and mark the session active. -/
def restart (st : ManagerState) (id : List Char) :
    Option Session × ManagerState × Option PtySpec :=
  match alGet st.sessions id with
  | none => (none, st, none)
  | some m =>
    let spec : PtySpec :=
      { type := m.session.type, workingDir := m.session.workingDir, resume := true }
    let s' : Session := { m.session with status := SessionStatus.active }
    (some s', ⟨alSet st.sessions id ⟨s', true⟩⟩, some spec)

end TerminalManager

namespace TerminalManager

/-! ## Tunnel-id theorems (C10 groundwork) -/

theorem takeWhile_append_of_all {p : Char → Bool} :
    ∀ (l r : List Char), (∀ c ∈ l, p c = true) →
      (l ++ r).takeWhile p = l ++ r.takeWhile p := by
  intro l r h
  induction l with
  | nil => simp
  | cons c t ih =>
    simp only [List.cons_append, List.takeWhile_cons]
    rw [h c (by simp)]
    simp [ih (fun x hx => h x (by simp [hx]))]

theorem dropWhile_append_of_all {p : Char → Bool} :
    ∀ (l r : List Char), (∀ c ∈ l, p c = true) →
      (l ++ r).dropWhile p = r.dropWhile p := by
  intro l r h
  induction l with
  | nil => simp
  | cons c t ih =>
    simp only [List.cons_append, List.dropWhile_cons]
    rw [h c (by simp)]
    simp [ih (fun x hx => h x (by simp [hx]))]

end TerminalManager

namespace TerminalManager

theorem alGet_alSet_self {κ α : Type} [DecidableEq κ] (l : List (κ × α)) (k : κ) (v : α) :
    alGet (alSet l k v) k = some v := by
  induction l with
  | nil => simp [alSet, alGet, List.find?]
  | cons p t ih =>
    by_cases h : p.1 = k
    · simp [alSet, h, alGet, List.find?]
    · simp only [alSet, if_neg h]
      simp only [alGet, List.find?] at ih ⊢
      rw [decide_eq_false h]
      exact ih

/-- C10: composing a tunnel session id from a colon-free instance id and any
remote session id parses back to exactly that pair, and `isTunnelSessionId`
holds for it; `parseTunnelSessionId` rejects strings without the `tunnel:`
prefix, and strings whose remainder after the prefix has no colon. -/
theorem tunnel_id_roundtrip (i r s : List Char) (hi : ':' ∉ i) :
    parseTunnelSessionId (makeTunnelSessionId i r) = some (i, r) ∧
    isTunnelSessionId (makeTunnelSessionId i r) = true ∧
    (isTunnelSessionId s = false → parseTunnelSessionId s = none) ∧
    (':' ∉ s.drop tunnelPrefix.length → parseTunnelSessionId s = none) := by
  have hpref : isTunnelSessionId (makeTunnelSessionId i r) = true := by
    simp [isTunnelSessionId, makeTunnelSessionId, List.isPrefixOf_iff_prefix]
  have hdrop :
      (makeTunnelSessionId i r).drop tunnelPrefix.length = i ++ ':' :: r := by
    simp [makeTunnelSessionId, List.drop_left]
  have hall : ∀ c ∈ i, (decide (c ≠ ':')) = true := by
    intro c hc
    simp only [decide_eq_true_eq]
    intro hc'
    exact hi (hc' ▸ hc)
  refine ⟨?_, hpref, ?_, ?_⟩
  · simp only [parseTunnelSessionId, hpref, if_true, hdrop]
    rw [dropWhile_append_of_all i (':' :: r) hall,
        takeWhile_append_of_all i (':' :: r) hall]
    simp [List.dropWhile_cons, List.takeWhile_cons]
  · intro h
    simp [parseTunnelSessionId, h]
  · intro h
    by_cases hp : isTunnelSessionId s = true
    · have : (s.drop tunnelPrefix.length).dropWhile (fun c => decide (c ≠ ':')) = [] := by
        rw [List.dropWhile_eq_nil_iff]
        intro c hc
        simp only [decide_eq_true_eq]
        intro hc'
        exact h (hc' ▸ hc)
      simp only [parseTunnelSessionId, hp, if_true]
      rw [this]
    · simp [parseTunnelSessionId, Bool.eq_false_iff.2 hp]

/-- C10 witness: concrete round trip and rejections. -/
theorem tunnel_id_roundtrip_witness :
    parseTunnelSessionId (makeTunnelSessionId "abc".data "x:y".data) =
      some ("abc".data, "x:y".data) ∧
    isTunnelSessionId (makeTunnelSessionId "abc".data "x:y".data) = true ∧
    parseTunnelSessionId "nope".data = none ∧
    parseTunnelSessionId "tunnel:abc".data = none := by
  have h := tunnel_id_roundtrip "abc".data "x:y".data "nope".data (by decide)
  have h2 := tunnel_id_roundtrip "abc".data "x:y".data "tunnel:abc".data (by decide)
  exact ⟨h.1, h.2.1, h.2.2.1 (by decide), h2.2.2.2 (by decide)⟩

/-- C9: the watcher emits a discovered pair iff the session id is unseen and
the working directory is unclaimed; after a successful emit for some
directory, any later observation of that directory is silently absorbed,
whatever its (previously unseen) session id. -/
theorem shouldEmit_spec (st : WatcherState) (sid dir sid2 : List Char) :
    ((shouldEmit st sid dir).1 = true ↔
      sid ∉ st.knownIds ∧ dir ∉ st.knownWorkingDirs) ∧
    ((shouldEmit st sid dir).1 = true →
      (shouldEmit (shouldEmit st sid dir).2 sid2 dir).1 = false) := by
  constructor
  · by_cases h1 : sid ∈ st.knownIds
    · simp [shouldEmit, h1]
    · by_cases h2 : dir ∈ st.knownWorkingDirs
      · simp [shouldEmit, h1, h2]
      · simp [shouldEmit, h1, h2]
  · intro hemit
    by_cases h1 : sid ∈ st.knownIds
    · simp [shouldEmit, h1] at hemit
    · by_cases h2 : dir ∈ st.knownWorkingDirs
      · simp [shouldEmit, h1, h2] at hemit
      · simp only [shouldEmit, if_neg h1, if_neg h2]
        by_cases h3 : sid2 ∈ sid :: st.knownIds
        · simp [h3]
        · simp [h3]

/-- C9 witness: concrete emit followed by absorption of a fresh id for the
same directory. -/
theorem shouldEmit_spec_witness :
    (shouldEmit ⟨[], []⟩ "u1".data "/d".data).1 = true ∧
    (shouldEmit (shouldEmit ⟨[], []⟩ "u1".data "/d".data).2 "u2".data "/d".data).1
      = false := by
  have h := shouldEmit_spec ⟨[], []⟩ "u1".data "/d".data "u2".data
  have he : (shouldEmit ⟨([] : List (List Char)), ([] : List (List Char))⟩
      "u1".data "/d".data).1 = true := by decide
  exact ⟨he, h.2 he⟩

/-- C7: `restart` on an unknown id returns the not-found result, spawns no
PTY and leaves the state unchanged; on a known id it returns the session
set to active with its id and working directory unchanged, spawns a PTY
with `resume := true` on that working directory, and stores the reactivated
record under the same id. -/
theorem restart_spec (st : ManagerState) (id : List Char) (m : ManagedSession) :
    (alGet st.sessions id = none → restart st id = (none, st, none)) ∧
    (alGet st.sessions id = some m →
      ∃ s', (restart st id).1 = some s' ∧
        s'.status = SessionStatus.active ∧
        s'.id = m.session.id ∧
        s'.workingDir = m.session.workingDir ∧
        (restart st id).2.2 = some ⟨m.session.type, m.session.workingDir, true⟩ ∧
        alGet (restart st id).2.1.sessions id = some ⟨s', true⟩) := by
  constructor
  · intro h
    simp [restart, h]
  · intro h
    refine ⟨{ m.session with status := SessionStatus.active }, ?_, rfl, rfl, rfl, ?_, ?_⟩
    · simp [restart, h]
    · simp [restart, h]
    · simp only [restart, h]
      exact alGet_alSet_self _ _ _

/-- C7 witness: restart of a concrete closed record and of a missing id. -/
theorem restart_spec_witness :
    restart ⟨[]⟩ "gone".data = (none, ⟨[]⟩, none) ∧
    ∃ s', (restart ⟨[("s1".data,
        ⟨⟨"s1".data, "n".data, SessionType.claude, SessionStatus.closed, "/w".data⟩,
          false⟩)]⟩ "s1".data).1 = some s' ∧
      s'.status = SessionStatus.active ∧
      s'.id = "s1".data ∧
      s'.workingDir = "/w".data ∧
      (restart ⟨[("s1".data,
        ⟨⟨"s1".data, "n".data, SessionType.claude, SessionStatus.closed, "/w".data⟩,
          false⟩)]⟩ "s1".data).2.2 =
        some ⟨SessionType.claude, "/w".data, true⟩ := by
  constructor
  · exact (restart_spec ⟨[]⟩ "gone".data
      ⟨⟨[], [], SessionType.claude, SessionStatus.closed, []⟩, false⟩).1 (by decide)
  · obtain ⟨s', h1, h2, h3, h4, h5, _⟩ :=
      (restart_spec ⟨[("s1".data,
        ⟨⟨"s1".data, "n".data, SessionType.claude, SessionStatus.closed, "/w".data⟩,
          false⟩)]⟩ "s1".data
        ⟨⟨"s1".data, "n".data, SessionType.claude, SessionStatus.closed, "/w".data⟩,
          false⟩).2 (by decide)
    exact ⟨s', h1, h2, h3, h4, h5⟩

/-! ## Persistence store (`loadSavedSessions`) -/

structure SavedSession where
  id : List Char
  name : List Char
  type : SessionType
  workingDir : List Char
  deriving Repr, DecidableEq

/-- Dedup key `<type>:<workingDir>` used by `loadSavedSessions` (session
types contain no colon, so the template-string key is faithfully a pair). -/
def sessionKey (s : SavedSession) : SessionType × List Char :=
  (s.type, s.workingDir)

/-- Fold of the `seen` map: `seen.set(key, session)` over the parsed list. -/
def seenMapAux (m : List ((SessionType × List Char) × SavedSession))
    (l : List SavedSession) : List ((SessionType × List Char) × SavedSession) :=
  l.foldl (fun m s => alSet m (sessionKey s) s) m

/-- The dedup pass of `loadSavedSessions`: keep only the latest record per
`(type, workingDir)` key, in first-occurrence key order. -/
def dedupSavedSessions (l : List SavedSession) : List SavedSession :=
  (seenMapAux [] l).map Prod.snd

/-- `loadSavedSessions` on the parse outcome of `sessions.json`: a missing
file or a failed parse yields `[]`; a parsed list is deduplicated by
`(type, workingDir)` with the later occurrence winning. -/
def loadSavedSessions (parsed : Option (List SavedSession)) : List SavedSession :=
  match parsed with
  | none => []
  | some l => dedupSavedSessions l

/-- Modelled from the spec: the spec describes the dedup pass as
"Deduplicate by `id` (later occurrence wins)"; this definition follows those
words, for comparison with the implementation's `(type, workingDir)` key. -/
def dedupByIdSpec (l : List SavedSession) : List SavedSession :=
  (l.foldl (fun m s => alSet m s.id s) []).map Prod.snd

theorem alGet_nil {κ α : Type} [DecidableEq κ] (k : κ) :
    alGet ([] : List (κ × α)) k = none := rfl

theorem alGet_cons {κ α : Type} [DecidableEq κ] (p : κ × α) (t : List (κ × α)) (k : κ) :
    alGet (p :: t) k = if p.1 = k then some p.2 else alGet t k := by
  by_cases h : p.1 = k
  · simp [alGet, List.find?, h]
  · simp [alGet, List.find?, decide_eq_false h, h]

theorem alGet_alSet {κ α : Type} [DecidableEq κ] (m : List (κ × α)) (k k' : κ) (v : α) :
    alGet (alSet m k v) k' = if k' = k then some v else alGet m k' := by
  induction m with
  | nil =>
    rw [show alSet ([] : List (κ × α)) k v = [(k, v)] from rfl, alGet_cons]
    by_cases h : k' = k
    · simp [h]
    · rw [if_neg (fun hc : k = k' => h hc.symm), if_neg h, alGet_nil]
  | cons p t ih =>
    by_cases hp : p.1 = k
    · rw [show alSet (p :: t) k v = (k, v) :: t by simp [alSet, hp],
        alGet_cons, alGet_cons]
      by_cases h : k' = k
      · subst h; simp
      · rw [if_neg (fun hc : k = k' => h hc.symm), if_neg h,
          if_neg (fun hc : p.1 = k' => h ((hp ▸ hc : k = k')).symm)]
    · rw [show alSet (p :: t) k v = p :: alSet t k v by simp [alSet, hp],
        alGet_cons, alGet_cons]
      by_cases hpk : p.1 = k'
      · rw [if_pos hpk, if_pos hpk,
          if_neg (fun hc : k' = k => hp (hpk.trans hc))]
      · rw [if_neg hpk, if_neg hpk, ih]

theorem alSet_append_of_not_mem {κ α : Type} [DecidableEq κ]
    (m : List (κ × α)) (k : κ) (v : α) (h : k ∉ m.map Prod.fst) :
    alSet m k v = m ++ [(k, v)] := by
  induction m with
  | nil => simp [alSet]
  | cons p t ih =>
    simp only [List.map_cons, List.mem_cons] at h
    push_neg at h
    simp only [alSet, if_neg (fun hc : p.1 = k => h.1 hc.symm), List.cons_append]
    rw [ih h.2]

theorem seenMapAux_distinct (l : List SavedSession) :
    ∀ m : List ((SessionType × List Char) × SavedSession),
      (∀ s ∈ l, sessionKey s ∉ m.map Prod.fst) →
      l.Pairwise (fun a b => sessionKey a ≠ sessionKey b) →
      seenMapAux m l = m ++ l.map (fun s => (sessionKey s, s)) := by
  induction l with
  | nil => intro m _ _; simp [seenMapAux]
  | cons s t ih =>
    intro m hm hpw
    rcases List.pairwise_cons.mp hpw with ⟨hhead, htail⟩
    have hstep : seenMapAux m (s :: t) = seenMapAux (alSet m (sessionKey s) s) t := by
      simp [seenMapAux, List.foldl_cons]
    rw [hstep, alSet_append_of_not_mem m _ s (hm s (by simp))]
    rw [ih (m ++ [(sessionKey s, s)]) ?_ htail]
    · simp
    · intro x hx
      simp only [List.map_append, List.mem_append, List.map_cons, List.map_nil,
        List.mem_singleton]
      rintro (h1 | h2)
      · exact hm x (by simp [hx]) h1
      · exact hhead x hx h2.symm

theorem seenMapAux_lookup (l : List SavedSession) (k : SessionType × List Char) :
    alGet (seenMapAux [] l) k =
      (l.filter (fun s => sessionKey s = k)).getLast? := by
  induction l using List.reverseRecOn with
  | nil => simp [seenMapAux, alGet, List.find?]
  | append_singleton l s ih =>
    have hfold : seenMapAux [] (l ++ [s]) =
        alSet (seenMapAux [] l) (sessionKey s) s := by
      simp [seenMapAux, List.foldl_append]
    rw [hfold, alGet_alSet, List.filter_append]
    by_cases h : sessionKey s = k
    · simp [h, List.getLast?_concat]
    · have : ¬ k = sessionKey s := fun hc => h hc.symm
      simp [h, this, ih]

/-- C1 counterexample: two records with distinct ids but the same
`(type, workingDir)` pair. Dedup by id (the claim's rule) would retain
both; `loadSavedSessions` keeps only the later one. -/
theorem load_dedup_counterexample :
    (⟨"a".data, "n1".data, SessionType.claude, "/d".data⟩ : SavedSession).id ≠
      (⟨"b".data, "n2".data, SessionType.claude, "/d".data⟩ : SavedSession).id ∧
    dedupByIdSpec
      [⟨"a".data, "n1".data, SessionType.claude, "/d".data⟩,
       ⟨"b".data, "n2".data, SessionType.claude, "/d".data⟩] =
      [⟨"a".data, "n1".data, SessionType.claude, "/d".data⟩,
       ⟨"b".data, "n2".data, SessionType.claude, "/d".data⟩] ∧
    loadSavedSessions (some
      [⟨"a".data, "n1".data, SessionType.claude, "/d".data⟩,
       ⟨"b".data, "n2".data, SessionType.claude, "/d".data⟩]) =
      [⟨"b".data, "n2".data, SessionType.claude, "/d".data⟩] := by
  refine ⟨by decide, by decide, by decide⟩

/-- C1 (amended): `loadSavedSessions` returns the parsed list deduplicated
by `(type, workingDir)` with the later occurrence winning — the retained
record for each key is the last one carrying that key, and a list whose
`(type, workingDir)` pairs are pairwise distinct is returned unchanged; a
failed parse returns the empty list. -/
theorem load_dedup_spec (l : List SavedSession) (k : SessionType × List Char) :
    loadSavedSessions none = [] ∧
    (l.Pairwise (fun a b => sessionKey a ≠ sessionKey b) →
      loadSavedSessions (some l) = l) ∧
    alGet (seenMapAux [] l) k =
      (l.filter (fun s => sessionKey s = k)).getLast? := by
  refine ⟨rfl, ?_, seenMapAux_lookup l k⟩
  intro hpw
  have h := seenMapAux_distinct l [] (by simp) hpw
  simp only [loadSavedSessions, dedupSavedSessions, h, List.nil_append,
    List.map_map]
  exact List.map_congr_left (fun s _ => rfl) |>.trans (List.map_id l)

/-- C1 witness: a concrete distinct-key list is preserved, and the dedup
map holds the later record for a duplicated key. -/
theorem load_dedup_spec_witness :
    loadSavedSessions (some
      [⟨"a".data, "n1".data, SessionType.claude, "/d1".data⟩,
       ⟨"b".data, "n2".data, SessionType.copilot, "/d1".data⟩]) =
      [⟨"a".data, "n1".data, SessionType.claude, "/d1".data⟩,
       ⟨"b".data, "n2".data, SessionType.copilot, "/d1".data⟩] ∧
    alGet (seenMapAux []
      [⟨"a".data, "n1".data, SessionType.claude, "/d".data⟩,
       ⟨"b".data, "n2".data, SessionType.claude, "/d".data⟩])
      (SessionType.claude, "/d".data) =
      some ⟨"b".data, "n2".data, SessionType.claude, "/d".data⟩ := by
  constructor
  · exact (load_dedup_spec
      [⟨"a".data, "n1".data, SessionType.claude, "/d1".data⟩,
       ⟨"b".data, "n2".data, SessionType.copilot, "/d1".data⟩]
      (SessionType.claude, "/d1".data)).2.1 (by decide)
  · have h := (load_dedup_spec
      [⟨"a".data, "n1".data, SessionType.claude, "/d".data⟩,
       ⟨"b".data, "n2".data, SessionType.claude, "/d".data⟩]
      (SessionType.claude, "/d".data)).2.2
    rw [h]
    decide


/-! ## Peer discovery (`TunnelDiscovery`) -/

inductive HostStatus | discovered | connecting | connected | disconnected
  deriving Repr, DecidableEq

structure TunnelHostInfo where
  instanceId : List Char
  hostname : List Char
  identityHash : List Char
  address : List Char
  port : Nat
  status : HostStatus
  deriving Repr, DecidableEq

structure LocalIdentity where
  instanceId : List Char
  hostname : List Char
  identityHash : List Char
  deriving Repr, DecidableEq

structure DiscoveryState where
  hosts : List (List Char × TunnelHostInfo)
  hostLastSeen : List (List Char × Nat)
  deriving Repr, DecidableEq

inductive DiscEvent
  | hostFound (host : TunnelHostInfo)
  | hostLost (instanceId : List Char)
  deriving Repr, DecidableEq

/-- Map deletion (`Map.delete`). -/
def alErase {κ α : Type} [DecidableEq κ] : List (κ × α) → κ → List (κ × α)
  | [], _ => []
  | p :: t, k => if p.1 = k then alErase t k else p :: alErase t k

/-- `TunnelDiscovery.registerHost`: a `connected`/`connecting` host only has
its address and port refreshed; otherwise the descriptor is upserted with
the previous status (or `discovered`), and `host-found` fires for new
hosts. Empty hostnames become `"unknown"`. -/
def registerHost (st : DiscoveryState) (instanceId hostname identityHash address : List Char)
    (port : Nat) : DiscoveryState × List DiscEvent :=
  match alGet st.hosts instanceId with
  | some ex =>
    if ex.status = HostStatus.connected ∨ ex.status = HostStatus.connecting then
      ({ st with hosts := (alSet st.hosts instanceId
          { ex with address := address, port := port }) }, [])
    else
      ({ st with hosts := (alSet st.hosts instanceId
          { instanceId := instanceId,
            hostname := if hostname = [] then "unknown".data else hostname,
            identityHash := identityHash, address := address, port := port,
            status := ex.status }) }, [])
  | none =>
    let host : TunnelHostInfo :=
      { instanceId := instanceId,
        hostname := if hostname = [] then "unknown".data else hostname,
        identityHash := identityHash, address := address, port := port,
        status := HostStatus.discovered }
    ({ st with hosts := (alSet st.hosts instanceId host) }, [DiscEvent.hostFound host])

/-- One deletion step of `sweepStaleHosts` over a stale entry. -/
def sweepStep (acc : List (List Char × TunnelHostInfo) × List DiscEvent)
    (p : List Char × Nat) : List (List Char × TunnelHostInfo) × List DiscEvent :=
  match alGet acc.1 p.1 with
  | some _ => (alErase acc.1 p.1, acc.2 ++ [DiscEvent.hostLost p.1])
  | none => acc

/-- `TunnelDiscovery.sweepStaleHosts`: every entry whose last-seen is more
than 20000 ms old is dropped from `hostLastSeen`; if the host is still in
the map it is removed and `host-lost` emitted. -/
def sweepStaleHosts (st : DiscoveryState) (now : Nat) :
    DiscoveryState × List DiscEvent :=
  let stale := st.hostLastSeen.filter (fun p => 20000 < now - p.2)
  let remaining := st.hostLastSeen.filter (fun p => ¬ 20000 < now - p.2)
  let r := stale.foldl sweepStep (st.hosts, [])
  ({ hosts := r.1, hostLastSeen := remaining }, r.2)

structure BeaconPayload where
  magic : List Char
  instanceId : List Char
  hostname : List Char
  identityHash : List Char
  port : Nat
  deriving Repr, DecidableEq

/-- `TunnelDiscovery.handleBeacon` on the parse outcome of a UDP datagram
(`none` = JSON parse failure): guarded on magic, non-empty fields, own
instance and identity hash; then records last-seen and registers. -/
def handleBeacon (ident : LocalIdentity) (st : DiscoveryState)
    (payload : Option BeaconPayload) (senderAddress : List Char) (now : Nat) :
    DiscoveryState × List DiscEvent :=
  match payload with
  | none => (st, [])
  | some p =>
    if p.magic ≠ "TM_BEACON_V1".data then (st, [])
    else if p.instanceId = [] ∨ p.identityHash = [] then (st, [])
    else if p.instanceId = ident.instanceId then (st, [])
    else if p.identityHash ≠ ident.identityHash then (st, [])
    else
      registerHost
        { st with hostLastSeen := (alSet st.hostLastSeen p.instanceId now) }
        p.instanceId p.hostname p.identityHash senderAddress p.port

structure TxtRecord where
  instanceId : List Char
  hostname : List Char
  identityHash : List Char
  deriving Repr, DecidableEq

structure ServiceInfo where
  txt : Option TxtRecord
  addresses : List (List Char)
  port : Nat
  deriving Repr, DecidableEq

/-- `TunnelDiscovery.handleServiceFound`: same guards as the beacon path,
then a routable-IPv4-preferring address pick before registering. -/
def handleServiceFound (ident : LocalIdentity) (st : DiscoveryState)
    (service : ServiceInfo) : DiscoveryState × List DiscEvent :=
  match service.txt with
  | none => (st, [])
  | some txt =>
    if txt.instanceId = [] ∨ txt.identityHash = [] then (st, [])
    else if txt.instanceId = ident.instanceId then (st, [])
    else if txt.identityHash ≠ ident.identityHash then (st, [])
    else
      let pick :=
        (service.addresses.find? (fun a =>
            ¬ ':' ∈ a ∧ ¬ "127.".data.isPrefixOf a ∧
            ¬ "169.254.".data.isPrefixOf a)).orElse
          (fun _ => (service.addresses.find? (fun a => ¬ ':' ∈ a)).orElse
            (fun _ => service.addresses.head?))
      match pick with
      | none => (st, [])
      | some address =>
        registerHost st txt.instanceId txt.hostname txt.identityHash address
          service.port

/-- Hosts-map invariant: every admitted host carries the local identity hash. -/
def hostsIdentityOk (ident : LocalIdentity) (st : DiscoveryState) : Prop :=
  ∀ p ∈ st.hosts, p.2.identityHash = ident.identityHash


theorem alGet_alErase_self {κ α : Type} [DecidableEq κ] (l : List (κ × α)) (k : κ) :
    alGet (alErase l k) k = none := by
  induction l with
  | nil => rfl
  | cons p t ih =>
    by_cases h : p.1 = k
    · simpa [alErase, h] using ih
    · rw [show alErase (p :: t) k = p :: alErase t k by simp [alErase, h],
        alGet_cons, if_neg h]
      exact ih

theorem alGet_alErase_ne {κ α : Type} [DecidableEq κ] (l : List (κ × α)) (k j : κ)
    (h : j ≠ k) : alGet (alErase l k) j = alGet l j := by
  induction l with
  | nil => rfl
  | cons p t ih =>
    by_cases hp : p.1 = k
    · have hpj : ¬ p.1 = j := fun hc => h (hc ▸ hp)
      rw [show alErase (p :: t) k = alErase t k by simp [alErase, hp],
        alGet_cons, if_neg hpj, ih]
    · rw [show alErase (p :: t) k = p :: alErase t k by simp [alErase, hp],
        alGet_cons, alGet_cons, ih]

theorem sweepStep_none (acc : List (List Char × TunnelHostInfo) × List DiscEvent)
    (p : List Char × Nat) (i : List Char) (h : alGet acc.1 i = none) :
    alGet (sweepStep acc p).1 i = none := by
  rcases hg : alGet acc.1 p.1 with _ | host
  · simpa [sweepStep, hg] using h
  · by_cases hid : i = p.1
    · simp [sweepStep, hg, hid, alGet_alErase_self]
    · simp [sweepStep, hg, alGet_alErase_ne _ _ _ hid, h]

theorem sweepFold_none (stale : List (List Char × Nat)) (i : List Char) :
    ∀ acc, alGet acc.1 i = none →
      alGet (stale.foldl sweepStep acc).1 i = none := by
  induction stale with
  | nil => intro acc h; simpa using h
  | cons p t ih =>
    intro acc h
    rw [List.foldl_cons]
    exact ih _ (sweepStep_none acc p i h)

theorem sweepFold_removes (stale : List (List Char × Nat)) (i : List Char) :
    ∀ acc, i ∈ stale.map Prod.fst →
      alGet (stale.foldl sweepStep acc).1 i = none := by
  induction stale with
  | nil => intro acc h; simp at h
  | cons p t ih =>
    intro acc h
    rw [List.foldl_cons]
    by_cases hid : i = p.1
    · subst hid
      refine sweepFold_none t _ _ ?_
      rcases hg : alGet acc.1 p.1 with _ | host
      · simp [sweepStep, hg]
      · simp [sweepStep, hg, alGet_alErase_self]
    · have h' : i = p.1 ∨ i ∈ t.map Prod.fst := by simpa using h
      rcases h' with h1 | h2
      · exact absurd h1 hid
      · exact ih _ h2

theorem sweepFold_events_mono (stale : List (List Char × Nat)) :
    ∀ acc e, e ∈ acc.2 → e ∈ (stale.foldl sweepStep acc).2 := by
  induction stale with
  | nil => intro acc e h; simpa using h
  | cons p t ih =>
    intro acc e h
    rw [List.foldl_cons]
    refine ih _ e ?_
    rcases hg : alGet acc.1 p.1 with _ | host
    · simpa [sweepStep, hg] using h
    · simp [sweepStep, hg, h]

theorem sweepFold_emits (stale : List (List Char × Nat)) (i : List Char) :
    ∀ acc (h : TunnelHostInfo), i ∈ stale.map Prod.fst →
      alGet acc.1 i = some h →
      DiscEvent.hostLost i ∈ (stale.foldl sweepStep acc).2 := by
  induction stale with
  | nil => intro acc h hm _; simp at hm
  | cons p t ih =>
    intro acc h hm hg
    rw [List.foldl_cons]
    by_cases hid : i = p.1
    · subst hid
      refine sweepFold_events_mono t _ _ ?_
      simp [sweepStep, hg]
    · have hm0 : i = p.1 ∨ i ∈ t.map Prod.fst := by simpa using hm
      have hm' : i ∈ t.map Prod.fst := hm0.resolve_left hid
      refine ih _ h hm' ?_
      rcases hgp : alGet acc.1 p.1 with _ | host
      · simpa [sweepStep, hgp] using hg
      · simpa [sweepStep, hgp, alGet_alErase_ne _ _ _ hid] using hg

/-- C2 counterexample: a host in `connected` status whose last-seen is
20001 ms stale is removed from the hosts map by the discovery sweep and
`host-lost` is emitted — contradicting "never removed by discovery". -/
theorem sweep_removes_connected_counterexample :
    sweepStaleHosts
      ⟨[("X".data, ⟨"X".data, "h".data, "id".data, "1.2.3.4".data, 9500,
          HostStatus.connected⟩)], [("X".data, 0)]⟩ 20001 =
      (⟨[], []⟩, [DiscEvent.hostLost "X".data]) := by decide

/-- C2 (amended): a host whose last-seen timestamp is more than 20 s old is
removed from the hosts map by the sweep regardless of its status — with
`host-lost` emitted whenever it was present; the connecting/connected
protection applies only to discovery updates: `registerHost` on such a host
refreshes only its address and port, keeps its status, and emits nothing. -/
theorem sweep_and_register_spec (st : DiscoveryState) (now : Nat)
    (i : List Char) (t : Nat) (iid hn ihash addr : List Char) (port : Nat)
    (ex : TunnelHostInfo) :
    ((i, t) ∈ st.hostLastSeen → 20000 < now - t →
      alGet (sweepStaleHosts st now).1.hosts i = none ∧
      (∀ h, alGet st.hosts i = some h →
        DiscEvent.hostLost i ∈ (sweepStaleHosts st now).2)) ∧
    (alGet st.hosts iid = some ex →
      (ex.status = HostStatus.connecting ∨ ex.status = HostStatus.connected) →
      registerHost st iid hn ihash addr port =
        ({ st with hosts := (alSet st.hosts iid
            { ex with address := addr, port := port }) }, [])) := by
  constructor
  · intro hmem hstale
    have hstalemem : (i, t) ∈ st.hostLastSeen.filter (fun p => 20000 < now - p.2) := by
      rw [List.mem_filter]
      exact ⟨hmem, by simpa using hstale⟩
    have hidmem : i ∈ (st.hostLastSeen.filter (fun p => 20000 < now - p.2)).map Prod.fst :=
      List.mem_map.mpr ⟨(i, t), hstalemem, rfl⟩
    constructor
    · exact sweepFold_removes _ _ _ hidmem
    · intro h hg
      exact sweepFold_emits _ _ _ h hidmem hg
  · intro hg hstatus
    unfold registerHost
    rw [hg]
    rcases hstatus with h | h <;> simp [h]

/-- C2 witness: a concrete stale `discovered` host is swept with an event,
and `registerHost` on a concrete `connected` host keeps its status. -/
theorem sweep_and_register_spec_witness :
    alGet (sweepStaleHosts
      ⟨[("Y".data, ⟨"Y".data, "h".data, "id".data, "1.2.3.4".data, 9500,
          HostStatus.discovered⟩)], [("Y".data, 100)]⟩ 30000).1.hosts "Y".data
      = none ∧
    DiscEvent.hostLost "Y".data ∈ (sweepStaleHosts
      ⟨[("Y".data, ⟨"Y".data, "h".data, "id".data, "1.2.3.4".data, 9500,
          HostStatus.discovered⟩)], [("Y".data, 100)]⟩ 30000).2 ∧
    registerHost
      ⟨[("Z".data, ⟨"Z".data, "h".data, "id".data, "1.2.3.4".data, 9500,
          HostStatus.connected⟩)], []⟩
      "Z".data "h2".data "id".data "5.6.7.8".data 9501 =
      (⟨[("Z".data, ⟨"Z".data, "h".data, "id".data, "5.6.7.8".data, 9501,
          HostStatus.connected⟩)], []⟩, []) := by
  have h1 := (sweep_and_register_spec
    ⟨[("Y".data, ⟨"Y".data, "h".data, "id".data, "1.2.3.4".data, 9500,
        HostStatus.discovered⟩)], [("Y".data, 100)]⟩ 30000
    "Y".data 100 "Z".data "h2".data "id".data "5.6.7.8".data 9501
    ⟨"Z".data, "h".data, "id".data, "1.2.3.4".data, 9500,
      HostStatus.connected⟩).1 (by decide) (by decide)
  have h2 := (sweep_and_register_spec
    ⟨[("Z".data, ⟨"Z".data, "h".data, "id".data, "1.2.3.4".data, 9500,
        HostStatus.connected⟩)], []⟩ 0
    "Y".data 100 "Z".data "h2".data "id".data "5.6.7.8".data 9501
    ⟨"Z".data, "h".data, "id".data, "1.2.3.4".data, 9500,
      HostStatus.connected⟩).2 (by decide) (Or.inr (by decide))
  refine ⟨h1.1, h1.2 ⟨"Y".data, "h".data, "id".data, "1.2.3.4".data, 9500,
      HostStatus.discovered⟩ (by decide), ?_⟩
  rw [h2]
  decide

theorem mem_alSet {κ α : Type} [DecidableEq κ] (l : List (κ × α)) (k : κ) (v : α)
    (q : κ × α) (h : q ∈ alSet l k v) : q = (k, v) ∨ q ∈ l := by
  induction l with
  | nil => simpa [alSet] using h
  | cons p t ih =>
    by_cases hp : p.1 = k
    · rw [show alSet (p :: t) k v = (k, v) :: t by simp [alSet, hp]] at h
      rcases List.mem_cons.mp h with h1 | h2
      · exact Or.inl h1
      · exact Or.inr (List.mem_cons_of_mem _ h2)
    · rw [show alSet (p :: t) k v = p :: alSet t k v by simp [alSet, hp]] at h
      rcases List.mem_cons.mp h with h1 | h2
      · exact Or.inr (h1 ▸ List.mem_cons_self _ _)
      · rcases ih h2 with h3 | h4
        · exact Or.inl h3
        · exact Or.inr (List.mem_cons_of_mem _ h4)

theorem alGet_mem {κ α : Type} [DecidableEq κ] (l : List (κ × α)) (k : κ) (v : α)
    (h : alGet l k = some v) : ∃ k0, (k0, v) ∈ l := by
  induction l with
  | nil => simp [alGet, List.find?] at h
  | cons p t ih =>
    rw [alGet_cons] at h
    by_cases hp : p.1 = k
    · rw [if_pos hp] at h
      refine ⟨p.1, ?_⟩
      have : v = p.2 := by simpa using h.symm
      subst this
      exact List.mem_cons_self _ _
    · rw [if_neg hp] at h
      rcases ih h with ⟨k0, hk0⟩
      exact ⟨k0, List.mem_cons_of_mem _ hk0⟩

theorem registerHost_identity (ident : LocalIdentity) (st : DiscoveryState)
    (iid hn ihash addr : List Char) (port : Nat)
    (hok : hostsIdentityOk ident st) (hihash : ihash = ident.identityHash) :
    hostsIdentityOk ident (registerHost st iid hn ihash addr port).1 := by
  intro q hq
  rcases hget : alGet st.hosts iid with _ | ex
  · simp only [registerHost, hget] at hq
    rcases mem_alSet _ _ _ _ hq with h1 | h2
    · subst h1; simpa using hihash
    · exact hok q h2
  · have hex : ex.identityHash = ident.identityHash := by
      rcases alGet_mem _ _ _ hget with ⟨k0, hk0⟩
      exact hok (k0, ex) hk0
    by_cases hs : ex.status = HostStatus.connected ∨ ex.status = HostStatus.connecting
    · simp only [registerHost, hget, if_pos hs] at hq
      rcases mem_alSet _ _ _ _ hq with h1 | h2
      · subst h1; simpa using hex
      · exact hok q h2
    · simp only [registerHost, hget, if_neg hs] at hq
      rcases mem_alSet _ _ _ _ hq with h1 | h2
      · subst h1; simpa using hihash
      · exact hok q h2

/-- C8: discovery ignores a beacon that fails to parse, carries the wrong
magic, comes from the local instance, or carries a foreign identity hash —
and likewise an mDNS record from the local instance or with a foreign
hash — leaving the hosts map unchanged and emitting nothing; consequently
both handlers preserve the invariant that every host in the map carries
the local identity hash, so a foreign host is never admitted. -/
theorem discovery_identity_guard (ident : LocalIdentity) (st : DiscoveryState)
    (payload : Option BeaconPayload) (sender : List Char) (now : Nat)
    (svc : ServiceInfo) :
    (payload = none → handleBeacon ident st payload sender now = (st, [])) ∧
    (∀ p, payload = some p →
      (p.magic ≠ "TM_BEACON_V1".data ∨ p.instanceId = ident.instanceId ∨
        p.identityHash ≠ ident.identityHash) →
      handleBeacon ident st payload sender now = (st, [])) ∧
    (∀ txt, svc.txt = some txt →
      (txt.instanceId = ident.instanceId ∨
        txt.identityHash ≠ ident.identityHash) →
      handleServiceFound ident st svc = (st, [])) ∧
    (hostsIdentityOk ident st →
      hostsIdentityOk ident (handleBeacon ident st payload sender now).1 ∧
      hostsIdentityOk ident (handleServiceFound ident st svc).1) := by
  refine ⟨?_, ?_, ?_, ?_⟩
  · intro h; rw [h]; rfl
  · intro p hp hcond
    rw [hp]
    simp only [handleBeacon]
    split_ifs with a b c d
    · rfl
    · rfl
    · rfl
    · rfl
    · exfalso
      rcases hcond with h | h | h
      · exact a h
      · exact c h
      · exact d h
  · intro txt htxt hcond
    simp only [handleServiceFound, htxt]
    split_ifs with a b c
    · rfl
    · rfl
    · rfl
    · exfalso
      rcases hcond with h | h
      · exact b h
      · exact c h
  · intro hok
    constructor
    · rcases payload with _ | p
      · exact hok
      · simp only [handleBeacon]
        split_ifs with a b c d
        · exact hok
        · exact hok
        · exact hok
        · exact hok
        · exact registerHost_identity ident _ _ _ _ _ _ hok (not_not.mp d)
    · rcases htxt : svc.txt with _ | txt
      · simpa [handleServiceFound, htxt] using hok
      · simp only [handleServiceFound, htxt]
        split_ifs with a b c
        · exact hok
        · exact hok
        · exact hok
        · rcases hpick : ((svc.addresses.find? (fun a =>
              ¬ ':' ∈ a ∧ ¬ "127.".data.isPrefixOf a ∧
              ¬ "169.254.".data.isPrefixOf a)).orElse
            (fun _ => (svc.addresses.find? (fun a => ¬ ':' ∈ a)).orElse
              (fun _ => svc.addresses.head?))) with _ | adr
          · simp only [hpick]
            exact hok
          · simp only [hpick]
            exact registerHost_identity ident _ _ _ _ _ _ hok (not_not.mp c)

/-- C8 witness: a parse failure, a foreign-hash beacon and a foreign-hash
mDNS record are all dropped, and the invariant holds on a concrete map. -/
theorem discovery_identity_guard_witness :
    handleBeacon ⟨"me".data, "mh".data, "hash".data⟩ ⟨[], []⟩ none
      "9.9.9.9".data 0 = (⟨[], []⟩, []) ∧
    handleBeacon ⟨"me".data, "mh".data, "hash".data⟩ ⟨[], []⟩
      (some ⟨"TM_BEACON_V1".data, "other".data, "oh".data, "foreign".data, 9500⟩)
      "9.9.9.9".data 0 = (⟨[], []⟩, []) ∧
    handleServiceFound ⟨"me".data, "mh".data, "hash".data⟩ ⟨[], []⟩
      ⟨some ⟨"other".data, "oh".data, "foreign".data⟩, ["10.0.0.2".data], 9500⟩
      = (⟨[], []⟩, []) ∧
    hostsIdentityOk ⟨"me".data, "mh".data, "hash".data⟩
      (handleBeacon ⟨"me".data, "mh".data, "hash".data⟩ ⟨[], []⟩
        (some ⟨"TM_BEACON_V1".data, "other".data, "oh".data, "hash".data, 9500⟩)
        "9.9.9.9".data 0).1 := by
  have h1 := discovery_identity_guard ⟨"me".data, "mh".data, "hash".data⟩ ⟨[], []⟩
    none "9.9.9.9".data 0
    ⟨some ⟨"other".data, "oh".data, "foreign".data⟩, ["10.0.0.2".data], 9500⟩
  have h2 := discovery_identity_guard ⟨"me".data, "mh".data, "hash".data⟩ ⟨[], []⟩
    (some ⟨"TM_BEACON_V1".data, "other".data, "oh".data, "foreign".data, 9500⟩)
    "9.9.9.9".data 0
    ⟨some ⟨"other".data, "oh".data, "foreign".data⟩, ["10.0.0.2".data], 9500⟩
  have h3 := discovery_identity_guard ⟨"me".data, "mh".data, "hash".data⟩ ⟨[], []⟩
    (some ⟨"TM_BEACON_V1".data, "other".data, "oh".data, "hash".data, 9500⟩)
    "9.9.9.9".data 0
    ⟨some ⟨"other".data, "oh".data, "foreign".data⟩, ["10.0.0.2".data], 9500⟩
  refine ⟨h1.1 rfl, ?_, ?_, ?_⟩
  · exact h2.2.1 _ rfl (Or.inr (Or.inr (by decide)))
  · exact h1.2.2.1 _ rfl (Or.inr (by decide))
  · exact (h3.2.2.2 (by intro q hq; simp at hq)).1


/-! ## Peer server: `TunnelServer.start` port probing -/

/-- Outcome of one bind attempt (`tryListen`). -/
inductive BindOutcome
  | ok
  | addrInUse
  | otherErr (msg : List Char)
  deriving Repr, DecidableEq

/-- Error a `start` call surfaces. -/
inductive StartErr
  | inUse
  | other (msg : List Char)
  | allInUse
  deriving Repr, DecidableEq

/-- Loop body of `TunnelServer.start`: `for (p = base; p <= base + 10; p++)`
with `continue` only on `EADDRINUSE` at a non-final port; any other error —
including `EADDRINUSE` at the final port — is rethrown. The `rem` counter
encodes the loop bound (`rem = 11` at `p = base`). The statement after the
loop throws `allInUse`. -/
def startGo (f : Nat → BindOutcome) (base : Nat) : Nat → Nat → Except StartErr Nat
  | 0, _ => Except.error StartErr.allInUse
  | rem + 1, p =>
    match f p with
    | BindOutcome.ok => Except.ok p
    | BindOutcome.addrInUse =>
      if p < base + 10 then startGo f base rem (p + 1)
      else Except.error StartErr.inUse
    | BindOutcome.otherErr m => Except.error (StartErr.other m)

/-- `TunnelServer.start` over the per-port bind outcomes `f`. -/
def startModel (f : Nat → BindOutcome) (base : Nat) : Except StartErr Nat :=
  startGo f base 11 base

/-- C6: probing skips `EADDRINUSE` ports and otherwise propagates errors;
with ports 9500–9509 in use it listens on and returns 9510, and a
non-`EADDRINUSE` failure propagates immediately. But when all 11 ports are
in use, `start` rethrows the final port's `EADDRINUSE` error — the
`"All ports in range are in use"` error after the loop is unreachable,
contradicting the claimed (and spec'd) failure mode. -/
theorem start_port_probe_behavior :
    startModel (fun p => if p < 9510 then BindOutcome.addrInUse else BindOutcome.ok)
      9500 = Except.ok 9510 ∧
    startModel (fun _ => BindOutcome.addrInUse) 9500 =
      Except.error StartErr.inUse ∧
    startModel (fun _ => BindOutcome.addrInUse) 9500 ≠
      Except.error StartErr.allInUse ∧
    startModel (fun p => if p = 9500 then BindOutcome.otherErr "EACCES".data
        else BindOutcome.ok) 9500 =
      Except.error (StartErr.other "EACCES".data) := by
  refine ⟨rfl, rfl, ?_, rfl⟩
  intro h
  rw [show startModel (fun _ => BindOutcome.addrInUse) 9500 =
    Except.error StartErr.inUse from rfl] at h
  injection h with h2
  exact StartErr.noConfusion h2


/-! ## Metadata extractor (`extractMetadataFromOutput`)

The extractor is embedded over `List Char` with the source's regexes
realised as explicit scanners: each scanner tries a match at every
position from the left (JS leftmost-match), and global replaces
(`stripAnsi`) are realised as character automata. JS greedy/backtracking
semantics are resolved statically where the pattern admits a unique
match at a position.
-/

def escChar : Char := '\x1b'

def belChar : Char := '\x07'

def spinnerGlyphs : List Char := "⠐⠂✳✶✻✽✢·⠈⠁⠃".data

/-- A partial metadata patch (fields present only when detected). -/
structure MetaUpdates where
  model : Option (List Char) := none
  contextUsed : Option (List Char) := none
  lastMessage : Option (List Char) := none
  waitingForInput : Option Bool := none
  deriving Repr, DecidableEq

/-- Leftmost-match scanner: try the matcher at each position, left to
right, including the empty suffix (as JS regex search does). -/
def scanFor {α : Type} (f : List Char → Option α) : List Char → Option α
  | [] => f []
  | c :: t =>
    match f (c :: t) with
    | some r => some r
    | none => scanFor f t

/-- Matcher for `\u001b]0;[spinner]\s*([^\u0007]+)\u0007` at one
position. The capture group starts after the greedy `\s*`; when
everything before the BEL is whitespace, backtracking leaves exactly the
final whitespace character in the capture. -/
def claudeTitleAt (l : List Char) : Option (List Char) :=
  if l.take 4 = [escChar, ']', '0', ';'] then
    match l.drop 4 with
    | [] => none
    | c :: rest =>
      if c ∈ spinnerGlyphs then
        if (rest.dropWhile (· ≠ belChar)) = [] then none
        else if (rest.takeWhile (· ≠ belChar)) = [] then none
        else if (rest.takeWhile (· ≠ belChar)).dropWhile isJsSpace = [] then
          ((rest.takeWhile (· ≠ belChar)).getLast?).map (fun x => [x])
        else some ((rest.takeWhile (· ≠ belChar)).dropWhile isJsSpace)
      else none
  else none

def findClaudeTitle (l : List Char) : Option (List Char) :=
  scanFor claudeTitleAt l

/-- Rule 1 (kind-A OSC-0 title): `Claude Code` flags waiting-for-input;
any other title sets `waitingForInput := false` and, when its UTF-16
length is strictly between 2 and 80, `lastMessage`. -/
def applyClaudeTitle (output : List Char) (u : MetaUpdates) : MetaUpdates :=
  match findClaudeTitle output with
  | none => u
  | some raw =>
    let title := jsTrim raw
    if title = "Claude Code".data then { u with waitingForInput := some true }
    else
      let u1 := if 2 < jsLength title ∧ jsLength title < 80 then
        { u with lastMessage := some title } else u
      { u1 with waitingForInput := some false }

/-- Matcher for `\u001b]2;([^\u0007]+)\u0007` at one position. -/
def copilotTitleAt (l : List Char) : Option (List Char) :=
  if l.take 4 = [escChar, ']', '2', ';'] then
    if ((l.drop 4).dropWhile (· ≠ belChar)) = [] then none
    else if ((l.drop 4).takeWhile (· ≠ belChar)) = [] then none
    else some ((l.drop 4).takeWhile (· ≠ belChar))
  else none

def findCopilotTitle (l : List Char) : Option (List Char) :=
  scanFor copilotTitleAt l

/-- Rule 2 (kind-B OSC-2 title): the literal `GitHub Copilot` sets `model`. -/
def applyCopilotTitle (output : List Char) (u : MetaUpdates) : MetaUpdates :=
  match findCopilotTitle output with
  | none => u
  | some raw =>
    if jsTrim raw = "GitHub Copilot".data then
      { u with model := some "GitHub Copilot".data }
    else u

/-- Matcher for `\u001b[2m([^\u001b]+)\u001b[22m` at one position. -/
def dimTextAt (l : List Char) : Option (List Char) :=
  if l.take 4 = [escChar, '[', '2', 'm'] then
    if ((l.drop 4).dropWhile (· ≠ escChar)).take 5 = [escChar, '[', '2', '2', 'm'] then
      if ((l.drop 4).takeWhile (· ≠ escChar)) = [] then none
      else some ((l.drop 4).takeWhile (· ≠ escChar))
    else none
  else none

def findDimText (l : List Char) : Option (List Char) :=
  scanFor dimTextAt l

/-- Rule 3 (kind-A dim text): `Type @…` placeholders flag waiting; other
prompts of UTF-16 length in (2, 100) not starting with `─` set
`lastMessage`. -/
def applyDimText (output : List Char) (u : MetaUpdates) : MetaUpdates :=
  match findDimText output with
  | none => u
  | some raw =>
    let prompt := jsTrim raw
    if "Type @".data.isPrefixOf prompt then { u with waitingForInput := some true }
    else if 2 < jsLength prompt ∧ jsLength prompt < 100 ∧
        ¬ "─".data.isPrefixOf prompt then
      { u with lastMessage := some prompt }
    else u

def isCsiParamChar (c : Char) : Bool :=
  (decide ('0' ≤ c) && decide (c ≤ '9')) || decide (c = ';')

def isAsciiLetter (c : Char) : Bool :=
  (decide ('a' ≤ c) && decide (c ≤ 'z')) || (decide ('A' ≤ c) && decide (c ≤ 'Z'))

/-- State of the CSI-stripping automaton (global replace of
`\u001b\[[0-9;]*[a-zA-Z]`). -/
inductive CsiSt
  | plain
  | esc
  | par (buf : List Char)
  deriving Repr, DecidableEq

def stripCSIAux : CsiSt → List Char → List Char
  | CsiSt.plain, [] => []
  | CsiSt.plain, c :: t =>
    if c = escChar then stripCSIAux CsiSt.esc t
    else c :: stripCSIAux CsiSt.plain t
  | CsiSt.esc, [] => [escChar]
  | CsiSt.esc, c :: t =>
    if c = '[' then stripCSIAux (CsiSt.par []) t
    else if c = escChar then escChar :: stripCSIAux CsiSt.esc t
    else escChar :: c :: stripCSIAux CsiSt.plain t
  | CsiSt.par buf, [] => escChar :: '[' :: buf.reverse
  | CsiSt.par buf, c :: t =>
    if isCsiParamChar c then stripCSIAux (CsiSt.par (c :: buf)) t
    else if isAsciiLetter c then stripCSIAux CsiSt.plain t
    else if c = escChar then escChar :: '[' :: buf.reverse ++ stripCSIAux CsiSt.esc t
    else escChar :: '[' :: buf.reverse ++ (c :: stripCSIAux CsiSt.plain t)

/-- State of the OSC-stripping automaton (global replace of
`\u001b\][^\u0007]*\u0007`). -/
inductive OscSt
  | plain
  | esc
  | osc (buf : List Char)
  deriving Repr, DecidableEq

def stripOSCAux : OscSt → List Char → List Char
  | OscSt.plain, [] => []
  | OscSt.plain, c :: t =>
    if c = escChar then stripOSCAux OscSt.esc t
    else c :: stripOSCAux OscSt.plain t
  | OscSt.esc, [] => [escChar]
  | OscSt.esc, c :: t =>
    if c = ']' then stripOSCAux (OscSt.osc []) t
    else if c = escChar then escChar :: stripOSCAux OscSt.esc t
    else escChar :: c :: stripOSCAux OscSt.plain t
  | OscSt.osc buf, [] => escChar :: ']' :: buf.reverse
  | OscSt.osc buf, c :: t =>
    if c = belChar then stripOSCAux OscSt.plain t
    else stripOSCAux (OscSt.osc (c :: buf)) t

/-- `stripAnsi`: CSI replace, then OSC replace, then remove `\r`. -/
def stripAnsi (l : List Char) : List Char :=
  (stripOSCAux OscSt.plain (stripCSIAux CsiSt.plain l)).filter (· ≠ '\r')

def isDigitChar (c : Char) : Bool :=
  decide ('0' ≤ c) && decide (c ≤ '9')

/-- The greedy `(?:[.-]\d+)*` continuation of the version group. -/
def verTail : List Char → List Char
  | c :: d :: t =>
    if (c = '.' ∨ c = '-') ∧ isDigitChar d then
      c :: d :: (t.takeWhile isDigitChar ++ verTail (t.dropWhile isDigitChar))
    else []
  | _ => []
termination_by l => l.length
decreasing_by
  simp only [List.length_cons]
  have := (show (List.dropWhile isDigitChar t).Sublist t from
    List.dropWhile_sublist isDigitChar).length_le
  omega

/-- `\d+(?:[.-]\d+)*` anchored at the current position. -/
def numAt (l : List Char) : Option (List Char) :=
  match l with
  | c :: _ =>
    if isDigitChar c then
      some (l.takeWhile isDigitChar ++ verTail (l.dropWhile isDigitChar))
    else none
  | [] => none

/-- `[- ]?` then the version group, with the JS backtracking resolved:
a consumed separator must be followed by a digit, else the separator is
not consumed — in which case the head itself must be a digit. -/
def versionAfter (rest : List Char) : Option (List Char) :=
  match rest with
  | c :: t =>
    if c = '-' ∨ c = ' ' then
      match numAt t with
      | some v => some v
      | none => none
    else numAt rest
  | [] => none

/-- One alternation branch of `(opus|sonnet|haiku)` (case-insensitive),
returning the matched raw name and version. -/
def modelNameAt (l name : List Char) : Option (List Char × List Char) :=
  if (l.take name.length).map Char.toLower = name then
    match versionAfter (l.drop name.length) with
    | some v => some (l.take name.length, v)
    | none => none
  else none

/-- Matcher for `(opus|sonnet|haiku)[- ]?(\d+(?:[.-]\d+)*)` (with the
`i` flag) at one position. -/
def modelAt (l : List Char) : Option (List Char × List Char) :=
  match modelNameAt l "opus".data with
  | some r => some r
  | none =>
    match modelNameAt l "sonnet".data with
    | some r => some r
    | none => modelNameAt l "haiku".data

def findModel (l : List Char) : Option (List Char × List Char) :=
  scanFor modelAt l

/-- `charAt(0).toUpperCase() + slice(1).toLowerCase()`. -/
def capitalizeJs (l : List Char) : List Char :=
  match l with
  | [] => []
  | c :: t => Char.toUpper c :: t.map Char.toLower

/-- Rule 4a (model regex on the ANSI-stripped chunk). -/
def applyModel (clean : List Char) (u : MetaUpdates) : MetaUpdates :=
  match findModel clean with
  | none => u
  | some (name, ver) =>
    { u with model := some (capitalizeJs name ++
        ' ' :: ver.map (fun c => if c = '-' then '.' else c)) }

/-- Matcher for `(\d+(?:\.\d+)?)\s*%` at one position, with the JS
backtracking resolved: digit runs are maximal, and a failing fractional
part falls back to the integer part. -/
def contextAt (l : List Char) : Option (List Char) :=
  match l with
  | c :: _ =>
    if isDigitChar c then
      let d := l.takeWhile isDigitChar
      let r0 := l.dropWhile isDigitChar
      let withFrac : Option (List Char) :=
        match r0 with
        | '.' :: t =>
          match t with
          | d2 :: _ =>
            if isDigitChar d2 then
              match (t.dropWhile isDigitChar).dropWhile isJsSpace with
              | '%' :: _ => some (d ++ '.' :: t.takeWhile isDigitChar)
              | _ => none
            else none
          | [] => none
        | _ => none
      match withFrac with
      | some v => some v
      | none =>
        match r0.dropWhile isJsSpace with
        | '%' :: _ => some d
        | _ => none
    else none
  | [] => none

def findContext (l : List Char) : Option (List Char) :=
  scanFor contextAt l

/-- Rule 4b (context-used regex on the ANSI-stripped chunk). -/
def applyContext (clean : List Char) (u : MetaUpdates) : MetaUpdates :=
  match findContext clean with
  | none => u
  | some n => { u with contextUsed := some (n ++ ['%']) }

/-- Matcher for `❯ \u001b\[39m([^\u001b]+)` at one position. -/
def copilotPromptAt (l : List Char) : Option (List Char) :=
  if l.take 7 = ['❯', ' ', escChar, '[', '3', '9', 'm'] then
    if ((l.drop 7).takeWhile (· ≠ escChar)) = [] then none
    else some ((l.drop 7).takeWhile (· ≠ escChar))
  else none

def findCopilotPrompt (l : List Char) : Option (List Char) :=
  scanFor copilotPromptAt l

/-- Rule 5 (kind-B prompt): non-placeholder input after `❯ ` sets
`lastMessage`; a bare `❯` with no prompt match flags waiting. -/
def applyCopilotPrompt (output : List Char) (u : MetaUpdates) : MetaUpdates :=
  let pm := findCopilotPrompt output
  let u1 := match pm with
    | none => u
    | some raw =>
      let input := jsTrim raw
      if input ≠ [] ∧ ¬ "Type @".data.isPrefixOf input then
        { u with lastMessage := some input }
      else u
  if '❯' ∈ output ∧ pm = none then { u1 with waitingForInput := some true }
  else u1

/-- Rules 1–5 in source order (everything before the thinking fallback). -/
def extractRules15 (output : List Char) : MetaUpdates :=
  let u1 := applyClaudeTitle output {}
  let u2 := applyCopilotTitle output u1
  let u3 := applyDimText output u2
  let clean := stripAnsi output
  let u4 := applyModel clean u3
  let u5 := applyContext clean u4
  applyCopilotPrompt output u5

/-- Rule 6 (thinking fallback): fires only when no rule above set
`lastMessage` (a set `lastMessage` is always a non-empty string, so JS
falsiness coincides with absence). -/
def applyThinking (output : List Char) (u : MetaUpdates) : MetaUpdates :=
  if isSubstr "thinking".data output ∧ u.lastMessage = none then
    { u with lastMessage := some "Thinking...".data,
             waitingForInput := some false }
  else u

/-- `extractMetadataFromOutput` (the `currentMetadata` parameter is unused
by the source when computing the patch). -/
def extractMetadataFromOutput (output : List Char) : MetaUpdates :=
  applyThinking output (extractRules15 output)


/-- C3 counterexample: a chunk carrying both a kind-A OSC-0 title
(`TaskA`) and a dim-text prompt (`HelloMsg`). Rule 1 alone sets
`lastMessage = "TaskA"`, but on the combined chunk the later dim-text rule
overwrites it with `"HelloMsg"` — the priority order of the claim does not
hold. -/
theorem metadata_priority_counterexample :
    extractMetadataFromOutput "\x1b]0;✳ TaskA\x07".data =
      { model := none, contextUsed := none, lastMessage := some "TaskA".data,
        waitingForInput := some false } ∧
    extractMetadataFromOutput "\x1b]0;✳ TaskA\x07\x1b[2mHelloMsg\x1b[22m".data =
      { model := none, contextUsed := none, lastMessage := some "HelloMsg".data,
        waitingForInput := some false } := by
  exact ⟨by decide, by decide⟩

/-- C3 (amended): field assignment is last-match-wins — a rule later in
the §4.5 list overwrites a field set by an earlier rule; only the thinking
fallback (rule 6) is guarded: it never overwrites a `lastMessage` set by
rules 1–5, and fires exactly when none of them set `lastMessage` and the
chunk contains `thinking`. -/
theorem thinking_guard_spec (output : List Char) :
    ((extractRules15 output).lastMessage ≠ none →
      extractMetadataFromOutput output = extractRules15 output) ∧
    ((extractRules15 output).lastMessage = none →
      isSubstr "thinking".data output = true →
      extractMetadataFromOutput output =
        { extractRules15 output with
            lastMessage := some "Thinking...".data,
            waitingForInput := some false }) := by
  constructor
  · intro h
    unfold extractMetadataFromOutput applyThinking
    rw [if_neg]
    rintro ⟨-, h2⟩
    exact h h2
  · intro h1 h2
    unfold extractMetadataFromOutput applyThinking
    rw [if_pos ⟨h2, h1⟩]

/-- C3 witness: with a title already setting `lastMessage`, a trailing
`thinking` changes nothing; with no `lastMessage` set, it fires. -/
theorem thinking_guard_spec_witness :
    extractMetadataFromOutput "\x1b]0;✳ Fixing bug\x07 thinking".data =
      extractRules15 "\x1b]0;✳ Fixing bug\x07 thinking".data ∧
    extractMetadataFromOutput "now thinking hard".data =
      { extractRules15 "now thinking hard".data with
          lastMessage := some "Thinking...".data,
          waitingForInput := some false } := by
  exact ⟨(thinking_guard_spec "\x1b]0;✳ Fixing bug\x07 thinking".data).1 (by decide),
    (thinking_guard_spec "now thinking hard".data).2 (by decide) (by decide)⟩


theorem take_ne_cons_of_not_mem (s : List Char) (n : Nat) (c : Char) (r : List Char)
    (h : c ∉ s) : s.take n ≠ c :: r := by
  intro he
  have hc : c ∈ s.take n := by rw [he]; exact List.mem_cons_self c r
  exact h (List.take_subset n s hc)

theorem scanFor_cons {α : Type} (f : List Char → Option α) (c : Char) (t : List Char) :
    scanFor f (c :: t) =
      match f (c :: t) with
      | some r => some r
      | none => scanFor f t := rfl

theorem scanFor_none_of_avoid {α : Type} (c0 : Char) (f : List Char → Option α)
    (hf : ∀ s, c0 ∉ s → f s = none) :
    ∀ l, c0 ∉ l → scanFor f l = none := by
  intro l
  induction l with
  | nil =>
    intro h
    show f [] = none
    exact hf [] h
  | cons c t ih =>
    intro h
    rw [scanFor_cons, hf (c :: t) h]
    exact ih (fun hm => h (List.mem_cons_of_mem c hm))

theorem claudeTitleAt_none (s : List Char) (h : escChar ∉ s) :
    claudeTitleAt s = none := by
  unfold claudeTitleAt
  rw [if_neg (take_ne_cons_of_not_mem s 4 escChar _ h)]

theorem copilotTitleAt_none (s : List Char) (h : escChar ∉ s) :
    copilotTitleAt s = none := by
  unfold copilotTitleAt
  rw [if_neg (take_ne_cons_of_not_mem s 4 escChar _ h)]

theorem dimTextAt_none (s : List Char) (h : escChar ∉ s) :
    dimTextAt s = none := by
  unfold dimTextAt
  rw [if_neg (take_ne_cons_of_not_mem s 4 escChar _ h)]

theorem copilotPromptAt_none (s : List Char) (h : ('❯' : Char) ∉ s) :
    copilotPromptAt s = none := by
  unfold copilotPromptAt
  rw [if_neg (take_ne_cons_of_not_mem s 7 '❯' _ h)]

theorem stripCSIAux_plain_id (l : List Char) (h : escChar ∉ l) :
    stripCSIAux CsiSt.plain l = l := by
  induction l with
  | nil => rfl
  | cons c t ih =>
    have hc : ¬ c = escChar := fun he => h (he ▸ List.mem_cons_self c t)
    show (if c = escChar then stripCSIAux CsiSt.esc t
      else c :: stripCSIAux CsiSt.plain t) = c :: t
    rw [if_neg hc, ih (fun hm => h (List.mem_cons_of_mem c hm))]

theorem stripOSCAux_osc_through (r : List Char) :
    ∀ (l : List Char) (buf : List Char), belChar ∉ l →
      stripOSCAux (OscSt.osc buf) (l ++ belChar :: r) =
        stripOSCAux OscSt.plain r := by
  intro l
  induction l with
  | nil =>
    intro buf _
    show (if belChar = belChar then stripOSCAux OscSt.plain r
      else stripOSCAux (OscSt.osc (belChar :: buf)) r) = _
    rw [if_pos rfl]
  | cons c t ih =>
    intro buf h
    have hc : ¬ c = belChar := fun he => h (he ▸ List.mem_cons_self c t)
    show (if c = belChar then stripOSCAux OscSt.plain (t ++ belChar :: r)
      else stripOSCAux (OscSt.osc (c :: buf)) (t ++ belChar :: r)) = _
    rw [if_neg hc]
    exact ih _ (fun hm => h (List.mem_cons_of_mem c hm))

/-- A chunk consisting of exactly one kind-A OSC-0 window title with the
`✳` spinner glyph and title text `t`. -/
def claudeChunk (t : List Char) : List Char :=
  escChar :: ']' :: '0' :: ';' :: '✳' :: ' ' :: (t ++ [belChar])


/-- C4 counterexample: the title `ab` (length 2, outside (2, 80)) still
yields a patch with `waitingForInput = false`; the claim says neither field
is set for out-of-range titles. -/
theorem claude_title_short_counterexample :
    extractMetadataFromOutput "\x1b]0;✳ ab\x07".data =
      { model := none, contextUsed := none, lastMessage := none,
        waitingForInput := some false } := by decide

/-- C4 (amended): for a chunk holding exactly one spinner-prefixed kind-A
OSC-0 title `t` (no stray escapes, prompts or `thinking` text, `t` already
trimmed): `Claude Code` yields `waitingForInput := true`; any other title
yields `waitingForInput := false` unconditionally, with `lastMessage := t`
exactly when the title's UTF-16 length lies strictly between 2 and 80. -/
theorem claude_title_patch (t : List Char) (hne : t ≠ [])
    (hesc : escChar ∉ t) (hbel : belChar ∉ t) (hpr : ('❯' : Char) ∉ t)
    (hth : isSubstr "thinking".data (claudeChunk t) = false)
    (ht1 : t.dropWhile isJsSpace = t)
    (ht2 : t.reverse.dropWhile isJsSpace = t.reverse) :
    extractMetadataFromOutput (claudeChunk t) =
      if t = "Claude Code".data then
        { waitingForInput := some true }
      else if 2 < jsLength t ∧ jsLength t < 80 then
        { lastMessage := some t, waitingForInput := some false }
      else
        { waitingForInput := some false } := by
  have hallbel : ∀ c ∈ t, (decide (c ≠ belChar)) = true := by
    intro c hc
    simp only [decide_eq_true_eq]
    exact fun he => hbel (he ▸ hc)
  have htake : (t ++ [belChar]).takeWhile (· ≠ belChar) = t := by
    rw [takeWhile_append_of_all t [belChar] hallbel,
      show ([belChar].takeWhile (· ≠ belChar)) = [] from by decide,
      List.append_nil]
  have hdropb : (t ++ [belChar]).dropWhile (· ≠ belChar) = [belChar] := by
    rw [dropWhile_append_of_all t [belChar] hallbel]
    decide
  have hsegW : (' ' :: (t ++ [belChar])).takeWhile (· ≠ belChar) = ' ' :: t := by
    rw [List.takeWhile_cons, if_pos (by decide), htake]
  have hdropW : (' ' :: (t ++ [belChar])).dropWhile (· ≠ belChar) = [belChar] := by
    rw [List.dropWhile_cons, if_pos (by decide), hdropb]
  have htrim : jsTrim t = t := by
    unfold jsTrim
    rw [ht1, ht2, List.reverse_reverse]
  have hat : claudeTitleAt (claudeChunk t) = some t := by
    unfold claudeTitleAt claudeChunk
    show (if ('✳' : Char) ∈ spinnerGlyphs then
        if (' ' :: (t ++ [belChar])).dropWhile (· ≠ belChar) = [] then none
        else if (' ' :: (t ++ [belChar])).takeWhile (· ≠ belChar) = [] then none
        else if ((' ' :: (t ++ [belChar])).takeWhile (· ≠ belChar)).dropWhile isJsSpace
            = [] then
          (((' ' :: (t ++ [belChar])).takeWhile (· ≠ belChar)).getLast?).map
            (fun x => [x])
        else some (((' ' :: (t ++ [belChar])).takeWhile (· ≠ belChar)).dropWhile
          isJsSpace)
      else none) = some t
    rw [if_pos (show ('✳' : Char) ∈ spinnerGlyphs by decide), hdropW, hsegW,
      if_neg (show ¬ ([belChar] = []) by decide),
      if_neg (List.cons_ne_nil ' ' t),
      List.dropWhile_cons, if_pos (show isJsSpace ' ' = true by decide), ht1,
      if_neg hne]
  have hfind1 : findClaudeTitle (claudeChunk t) = some t := by
    unfold findClaudeTitle
    rw [show claudeChunk t =
      escChar :: (']' :: '0' :: ';' :: '✳' :: ' ' :: (t ++ [belChar])) from rfl,
      scanFor_cons,
      show escChar :: (']' :: '0' :: ';' :: '✳' :: ' ' :: (t ++ [belChar])) =
        claudeChunk t from rfl,
      hat]
  have htailnoesc : escChar ∉ (']' :: '0' :: ';' :: '✳' :: ' ' :: (t ++ [belChar])) := by
    simp only [List.mem_cons, List.mem_append, List.mem_singleton]
    push_neg
    exact ⟨by decide, by decide, by decide, by decide, by decide,
      fun hm => absurd hm hesc, by decide⟩
  have h2 : findCopilotTitle (claudeChunk t) = none := by
    unfold findCopilotTitle
    rw [show claudeChunk t =
        escChar :: (']' :: '0' :: ';' :: '✳' :: ' ' :: (t ++ [belChar])) from rfl,
      scanFor_cons]
    have hhead : copilotTitleAt
        (escChar :: (']' :: '0' :: ';' :: '✳' :: ' ' :: (t ++ [belChar]))) = none := by
      unfold copilotTitleAt
      rw [show (escChar :: (']' :: '0' :: ';' :: '✳' :: ' ' :: (t ++ [belChar]))).take 4 =
        [escChar, ']', '0', ';'] from rfl]
      rw [if_neg (by decide)]
    rw [hhead]
    exact scanFor_none_of_avoid escChar copilotTitleAt copilotTitleAt_none _ htailnoesc
  have h3 : findDimText (claudeChunk t) = none := by
    unfold findDimText
    rw [show claudeChunk t =
        escChar :: (']' :: '0' :: ';' :: '✳' :: ' ' :: (t ++ [belChar])) from rfl,
      scanFor_cons]
    have hhead : dimTextAt
        (escChar :: (']' :: '0' :: ';' :: '✳' :: ' ' :: (t ++ [belChar]))) = none := by
      unfold dimTextAt
      rw [show (escChar :: (']' :: '0' :: ';' :: '✳' :: ' ' :: (t ++ [belChar]))).take 4 =
        [escChar, ']', '0', ';'] from rfl]
      rw [if_neg (by decide)]
    rw [hhead]
    exact scanFor_none_of_avoid escChar dimTextAt dimTextAt_none _ htailnoesc
  have hprall : ('❯' : Char) ∉ claudeChunk t := by
    unfold claudeChunk
    simp only [List.mem_cons, List.mem_append, List.mem_singleton]
    push_neg
    exact ⟨by decide, by decide, by decide, by decide, by decide, by decide,
      fun hm => absurd hm hpr, by decide⟩
  have h5 : findCopilotPrompt (claudeChunk t) = none :=
    scanFor_none_of_avoid '❯' copilotPromptAt copilotPromptAt_none _ hprall
  have hnoesc2 : escChar ∉ ('0' :: ';' :: '✳' :: ' ' :: (t ++ [belChar])) :=
    fun hm => htailnoesc (List.mem_cons_of_mem ']' hm)
  have hstrip : stripAnsi (claudeChunk t) = [] := by
    have e1 : ∀ X, stripCSIAux CsiSt.plain (escChar :: X) = stripCSIAux CsiSt.esc X := by
      intro X
      show (if escChar = escChar then stripCSIAux CsiSt.esc X
        else escChar :: stripCSIAux CsiSt.plain X) = _
      rw [if_pos rfl]
    have e2 : ∀ X, stripCSIAux CsiSt.esc (']' :: X) =
        escChar :: ']' :: stripCSIAux CsiSt.plain X := by
      intro X
      show (if (']' : Char) = '[' then stripCSIAux (CsiSt.par []) X
        else if (']' : Char) = escChar then escChar :: stripCSIAux CsiSt.esc X
        else escChar :: ']' :: stripCSIAux CsiSt.plain X) = _
      rw [if_neg (by decide), if_neg (by decide)]
    have hcsi : stripCSIAux CsiSt.plain (claudeChunk t) =
        escChar :: ']' :: ('0' :: ';' :: '✳' :: ' ' :: (t ++ [belChar])) := by
      rw [show claudeChunk t =
        escChar :: (']' :: ('0' :: ';' :: '✳' :: ' ' :: (t ++ [belChar]))) from rfl,
        e1, e2, stripCSIAux_plain_id _ hnoesc2]
    have o1 : ∀ X, stripOSCAux OscSt.plain (escChar :: X) = stripOSCAux OscSt.esc X := by
      intro X
      show (if escChar = escChar then stripOSCAux OscSt.esc X
        else escChar :: stripOSCAux OscSt.plain X) = _
      rw [if_pos rfl]
    have o2 : ∀ X, stripOSCAux OscSt.esc (']' :: X) = stripOSCAux (OscSt.osc []) X := by
      intro X
      show (if (']' : Char) = ']' then stripOSCAux (OscSt.osc []) X
        else if (']' : Char) = escChar then escChar :: stripOSCAux OscSt.esc X
        else escChar :: ']' :: stripOSCAux OscSt.plain X) = _
      rw [if_pos rfl]
    have hnobel : belChar ∉ ('0' :: ';' :: '✳' :: ' ' :: t) := by
      simp only [List.mem_cons]
      push_neg
      exact ⟨by decide, by decide, by decide, by decide, fun hm => absurd hm hbel⟩
    have hosc : stripOSCAux OscSt.plain
        (escChar :: ']' :: ('0' :: ';' :: '✳' :: ' ' :: (t ++ [belChar]))) = [] := by
      rw [o1, o2,
        show ('0' :: ';' :: '✳' :: ' ' :: (t ++ [belChar])) =
          (('0' :: ';' :: '✳' :: ' ' :: t) ++ (belChar :: [])) from by simp,
        stripOSCAux_osc_through [] _ [] hnobel]
      rfl
    unfold stripAnsi
    rw [hcsi, hosc]
    rfl
  have hCT : ∀ u, applyCopilotTitle (claudeChunk t) u = u := by
    intro u
    unfold applyCopilotTitle
    rw [h2]
  have hDT : ∀ u, applyDimText (claudeChunk t) u = u := by
    intro u
    unfold applyDimText
    rw [h3]
  have hM : ∀ u, applyModel ([] : List Char) u = u := fun u => rfl
  have hCx : ∀ u, applyContext ([] : List Char) u = u := fun u => rfl
  have hCP : ∀ u, applyCopilotPrompt (claudeChunk t) u = u := by
    intro u
    simp only [applyCopilotPrompt, h5]
    rw [if_neg]
    rintro ⟨hmem, -⟩
    exact hprall hmem
  have hTh : ∀ u, applyThinking (claudeChunk t) u = u := by
    intro u
    unfold applyThinking
    rw [if_neg]
    rintro ⟨hc, -⟩
    rw [hth] at hc
    exact Bool.noConfusion hc
  have hACT : applyClaudeTitle (claudeChunk t) {} =
      (if t = "Claude Code".data then
        ({ waitingForInput := some true } : MetaUpdates)
      else if 2 < jsLength t ∧ jsLength t < 80 then
        { lastMessage := some t, waitingForInput := some false }
      else
        { waitingForInput := some false }) := by
    simp only [applyClaudeTitle, hfind1, htrim]
    split_ifs <;> rfl
  show applyThinking (claudeChunk t)
    (applyCopilotPrompt (claudeChunk t)
      (applyContext (stripAnsi (claudeChunk t))
        (applyModel (stripAnsi (claudeChunk t))
          (applyDimText (claudeChunk t)
            (applyCopilotTitle (claudeChunk t)
              (applyClaudeTitle (claudeChunk t) {})))))) = _
  rw [hstrip, hACT, hCT, hDT, hM, hCx, hCP, hTh]

/-- C4 witness: the three shapes at concrete titles — the spec's example
title, the idle `Claude Code` title, and a length-2 title. -/
theorem claude_title_patch_witness :
    extractMetadataFromOutput (claudeChunk "Refactoring module".data) =
      { lastMessage := some "Refactoring module".data,
        waitingForInput := some false } ∧
    extractMetadataFromOutput (claudeChunk "Claude Code".data) =
      { waitingForInput := some true } ∧
    extractMetadataFromOutput (claudeChunk "ab".data) =
      { waitingForInput := some false } := by
  refine ⟨?_, ?_, ?_⟩
  · rw [claude_title_patch "Refactoring module".data (by decide) (by decide)
      (by decide) (by decide) (by decide) (by decide) (by decide),
      if_neg (by decide), if_pos (by decide)]
  · rw [claude_title_patch "Claude Code".data (by decide) (by decide)
      (by decide) (by decide) (by decide) (by decide) (by decide),
      if_pos (by decide)]
  · rw [claude_title_patch "ab".data (by decide) (by decide)
      (by decide) (by decide) (by decide) (by decide) (by decide),
      if_neg (by decide), if_neg (by decide)]


/-! ## Crypto packing layout (`encrypt` / `decrypt`)

The AES-256-GCM core is the platform crypto library, not repository code;
only the repository's packing of `iv (12) ++ authTag (16) ++ ciphertext`
and the matching unpack offsets (0..12, 12..28, 28..) are embedded here.
The cryptographic authentication property itself is not modelled. -/

/-- `encrypt`'s packing: `Buffer.concat([iv, authTag, encrypted])`. -/
def gcmPack (iv tag ct : List Nat) : List Nat :=
  iv ++ tag ++ ct

/-- `decrypt`'s unpacking: `subarray(0,12)`, `subarray(12,28)`,
`subarray(28)`. -/
def gcmUnpack (buf : List Nat) : List Nat × List Nat × List Nat :=
  (buf.take 12, (buf.drop 12).take 16, buf.drop 28)

/-- The unpack offsets match the pack layout: a 12-byte IV and a 16-byte
tag are recovered exactly, so the packing layer loses nothing between
`encrypt` and `decrypt`. -/
theorem gcmUnpack_gcmPack (iv tag ct : List Nat)
    (hiv : iv.length = 12) (htag : tag.length = 16) :
    gcmUnpack (gcmPack iv tag ct) = (iv, tag, ct) := by
  unfold gcmPack gcmUnpack
  refine congrArg₂ Prod.mk ?_ (congrArg₂ Prod.mk ?_ ?_)
  · rw [List.append_assoc, List.take_append_of_le_length (by omega), ← hiv,
      List.take_length]
  · rw [List.append_assoc, ← hiv, List.drop_left,
      List.take_append_of_le_length (by omega), ← htag, List.take_length]
  · rw [show (28 : Nat) = (iv ++ tag).length by simp [hiv, htag], List.drop_left]


end TerminalManager
